import Mathlib

/-!
A formal model of the repository's tar extraction engine (`untar` and its
driver in the tar decompressor) and of the Maven artifact resolver
(`MvnGetter.GetFile` / `parseLastestSnapshotVersion`), together with
theorems checking the specification's claims against these models.

Filesystem and network calls are modelled as total operations on an
explicit state, paired with a trace of the operations performed;
operating-system I/O failures (which the Go code merely propagates
unchanged) are not modelled.  Timestamps recorded as `none` mark times
written by extraction activity itself (file creation or modification),
`some (atime, mtime)` marks archive-recorded values applied by Chtimes.
-/

namespace Spec2Proof

/-- A filesystem path, as a list of components. -/
abbrev Path := List String

/-! ### Kernel-computable string primitives

Models of the Go `strings` functions the source uses, written by
structural recursion over the character list so that concrete runs can be
checked by `decide`/`rfl`. -/

def splitOnCharAux (sep : Char) : List Char → List Char → List String
  | [], acc => [String.mk acc.reverse]
  | c :: rest, acc =>
      if c = sep then String.mk acc.reverse :: splitOnCharAux sep rest []
      else splitOnCharAux sep rest (c :: acc)

/-- Go `strings.Split(s, sep)` for a one-character separator. -/
def splitOnChar (sep : Char) (s : String) : List String :=
  splitOnCharAux sep s.data []

/-- Go `strings.Replace(s, old, new, -1)` for one-character patterns. -/
def replaceChar (old new : Char) (s : String) : String :=
  String.mk (s.data.map (fun c => if c = old then new else c))

/-- Go `strings.HasSuffix`. -/
def strHasSuffix (s suffix : String) : Bool :=
  decide (s.data.drop (s.data.length - suffix.data.length) = suffix.data)

/-- Go `strings.HasPrefix`. -/
def strHasPre (s pre : String) : Bool :=
  decide (s.data.take pre.data.length = pre.data)

/-- Join a list of strings with a separator. -/
def joinStrings (sep : String) : List String → String
  | [] => ""
  | [x] => x
  | x :: y :: rest => x ++ sep ++ joinStrings sep (y :: rest)

/-- One step of lexical path cleaning (Go `filepath.Clean`): the
accumulator holds the cleaned path so far in reverse order; `""` and `"."`
components vanish, `".."` pops the previous component (or is kept when
there is nothing left to pop, as Go does for relative paths). -/
def cleanStep (stack : List String) (c : String) : List String :=
  if c = "" ∨ c = "." then stack
  else if c = ".." then
    match stack with
    | [] => [".."]
    | top :: rest => if top = ".." then c :: stack else rest
  else c :: stack

/-- Go `filepath.Join(dst, name)`: append the components of `name` to the
(already clean) path `dst` and clean the result lexically. -/
def joinPath (dst : Path) (name : String) : Path :=
  ((splitOnChar '/' name).foldl cleanStep dst.reverse).reverse

/-- Go `filepath.Dir` on a component list: everything but the last
component. -/
def parentPath (p : Path) : Path := p.dropLast

/-- `p` lies at or below `root`. -/
def isUnder (root p : Path) : Bool := decide (p.take root.length = root)

/-- Metadata of one regular file on disk. -/
structure FileMeta where
  content : List Nat
  mode : Nat
  times : Option (Int × Int)
deriving DecidableEq, Repr

/-- Filesystem state: directories (with their recorded times) and regular
files, as association lists keyed by path. -/
structure FS where
  dirs : List (Path × Option (Int × Int))
  files : List (Path × FileMeta)
deriving DecidableEq, Repr

def FS.empty : FS := ⟨[], []⟩

def assocFind {α : Type} (l : List (Path × α)) (k : Path) : Option α :=
  (l.find? (fun e => decide (e.1 = k))).map (·.2)

def assocSet {α : Type} (l : List (Path × α)) (k : Path) (v : α) : List (Path × α) :=
  (k, v) :: l.filter (fun e => decide (e.1 ≠ k))

def FS.isDirAt (fs : FS) (p : Path) : Bool := (assocFind fs.dirs p).isSome

def FS.isFileAt (fs : FS) (p : Path) : Bool := (assocFind fs.files p).isSome

/-- `os.Stat` succeeding: the path exists as a directory or a file. -/
def FS.pathExists (fs : FS) (p : Path) : Bool := fs.isDirAt p || fs.isFileAt p

/-- Creating an entry inside a directory updates that directory's
modification time (recorded as `none` = extraction-time). -/
def FS.touchDir (fs : FS) (p : Path) : FS :=
  if fs.isDirAt p then { fs with dirs := assocSet fs.dirs p none } else fs

/-- Create a single missing directory, updating the parent's times. -/
def FS.mkdirOne (fs : FS) (p : Path) : FS :=
  if fs.isDirAt p then fs
  else FS.touchDir { fs with dirs := assocSet fs.dirs p none } (parentPath p)

/-- `os.MkdirAll`: create every missing ancestor, shortest first. -/
def FS.mkdirAll (fs : FS) (p : Path) : FS :=
  (List.range p.length).foldl (fun acc i => acc.mkdirOne (p.take (i + 1))) fs

/-- `os.Create` followed by `io.Copy`: create or truncate the file at `p`
and write `content`; a newly created file gets default mode 0666 = 438 and
updates the parent directory's times, truncation keeps the old mode. -/
def FS.createFile (fs : FS) (p : Path) (content : List Nat) : FS :=
  match assocFind fs.files p with
  | some fm => { fs with files := assocSet fs.files p ⟨content, fm.mode, none⟩ }
  | none =>
      FS.touchDir { fs with files := assocSet fs.files p ⟨content, 438, none⟩ } (parentPath p)

/-- `os.Chmod` (only ever applied to files here). -/
def FS.chmod (fs : FS) (p : Path) (m : Nat) : FS :=
  match assocFind fs.files p with
  | some fm => { fs with files := assocSet fs.files p ⟨fm.content, m, fm.times⟩ }
  | none => fs

/-- `os.Chtimes`: set the recorded access and modification times of the
file or directory at `p`. -/
def FS.chtimes (fs : FS) (p : Path) (atime mtime : Int) : FS :=
  match assocFind fs.files p with
  | some fm => { fs with files := assocSet fs.files p ⟨fm.content, fm.mode, some (atime, mtime)⟩ }
  | none =>
      if fs.isDirAt p then { fs with dirs := assocSet fs.dirs p (some (atime, mtime)) }
      else fs

/-- Lookup of a file's metadata, for stating theorems. -/
def FS.findFile (fs : FS) (p : Path) : Option FileMeta := assocFind fs.files p

/-- Lookup of a directory's recorded times, for stating theorems. -/
def FS.findDir (fs : FS) (p : Path) : Option (Option (Int × Int)) := assocFind fs.dirs p

/-! ## The tar entry stream -/

/-- `tar.Header.Typeflag`, restricted to the distinctions the code makes. -/
inductive TypeFlag where
  | reg
  | dir
  | symlink
  | xHeader
  | xGlobalHeader
  | other
deriving DecidableEq, Repr

/-- One tar header together with the payload bytes the reader yields for
its entry (empty for entry kinds that carry no payload, e.g. symlinks). -/
structure Header where
  name : String
  typeflag : TypeFlag
  content : List Nat
  mode : Nat
  accessTime : Int
  modTime : Int
deriving DecidableEq, Repr

/-- The extended/global metadata headers that `untar` skips. -/
def Header.isExtended (h : Header) : Bool :=
  h.typeflag == TypeFlag.xHeader || h.typeflag == TypeFlag.xGlobalHeader

/-- `hdr.FileInfo().IsDir()`. -/
def Header.isDirEntry (h : Header) : Bool := h.typeflag == TypeFlag.dir

/-- A header that `untar` materializes as a file: neither skipped
metadata nor a directory. -/
def Header.isFileEntry (h : Header) : Bool := !h.isExtended && !h.isDirEntry

/-- Number of file-materializing entries in a list of headers. -/
def countFileEntries (l : List Header) : Nat := (l.filter Header.isFileEntry).length

/-- The entries that are not skipped as extended metadata. -/
def effectiveEntries (l : List Header) : List Header := l.filter (fun h => !h.isExtended)

/-! ## The extraction engine -/

/-- One observable filesystem operation performed by extraction. -/
inductive FsOp where
  | mkdirAll (p : Path)
  | create (p : Path) (content : List Nat)
  | chmod (p : Path) (mode : Nat)
  | chtimes (p : Path) (atime mtime : Int)
deriving DecidableEq, Repr

def FsOp.isCreate : FsOp → Bool
  | FsOp.create _ _ => true
  | _ => false

/-- Number of file-creation operations in a trace. -/
def countCreates (tr : List FsOp) : Nat := (tr.filter FsOp.isCreate).length

/-- Number of Chtimes operations applied to path `p` in a trace. -/
def countChtimesAt (tr : List FsOp) (p : Path) : Nat :=
  (tr.filter (fun op =>
    match op with
    | FsOp.chtimes q _ _ => decide (q = p)
    | _ => false)).length

inductive UntarErr where
  | emptyArchive (src : String)
  | unexpectedDir (src : String)
  | multipleFiles (src : String)
deriving DecidableEq, Repr

/-- Loop state of `untar`: the filesystem, the trace of operations so
far, the `done` flag (a file has been materialized) and the recorded
directory headers awaiting deferred Chtimes. -/
structure UntarSt where
  fs : FS
  trace : List FsOp
  done : Bool
  dirHdrs : List Header
deriving DecidableEq, Repr

/-- One iteration of the `untar` loop body on header `hdr`.  Returns the
state reached (including effects performed before a failure) and the
error, if any. -/
def untarStep (dst : Path) (src : String) (dirMode : Bool) (st : UntarSt) (hdr : Header) :
    UntarSt × Option UntarErr :=
  if hdr.isExtended then (st, none)
  else
    let path := if dirMode then joinPath dst hdr.name else dst
    if hdr.isDirEntry then
      if dirMode = false then (st, some (UntarErr.unexpectedDir src))
      else
        ({ st with
            fs := st.fs.mkdirAll path
            trace := st.trace ++ [FsOp.mkdirAll path]
            dirHdrs := st.dirHdrs ++ [hdr] }, none)
    else
      let dstPath := parentPath path
      let st1 :=
        if st.fs.pathExists dstPath then st
        else { st with fs := st.fs.mkdirAll dstPath, trace := st.trace ++ [FsOp.mkdirAll dstPath] }
      if dirMode = false && st1.done then (st1, some (UntarErr.multipleFiles src))
      else
        let fs' := ((st1.fs.createFile path hdr.content).chmod path hdr.mode).chtimes path
          hdr.accessTime hdr.modTime
        ({ st1 with
            fs := fs'
            done := true
            trace := st1.trace ++
              [FsOp.create path hdr.content, FsOp.chmod path hdr.mode,
               FsOp.chtimes path hdr.accessTime hdr.modTime] }, none)

/-- The `untar` loop: process headers in order until the stream ends or a
step fails. -/
def runEntries (dst : Path) (src : String) (dirMode : Bool) :
    UntarSt → List Header → UntarSt × Option UntarErr
  | st, [] => (st, none)
  | st, h :: rest =>
    match untarStep dst src dirMode st h with
    | (st', none) => runEntries dst src dirMode st' rest
    | (st', some e) => (st', some e)

/-- The deferred directory-timestamp pass at the end of `untar`. -/
def applyDirHdrs (dst : Path) (acc : FS × List FsOp) (hdrs : List Header) : FS × List FsOp :=
  hdrs.foldl
    (fun acc h =>
      let p := joinPath dst h.name
      (acc.1.chtimes p h.accessTime h.modTime,
       acc.2 ++ [FsOp.chtimes p h.accessTime h.modTime]))
    acc

/-- The `untar` helper: extract `entries` (the stream of tar headers)
below `dst`; `src` is the source label used in errors; `dirMode` is the
`dir` argument.  Returns the final filesystem, the operation trace, and
the error if extraction failed. -/
def untar (fs0 : FS) (entries : List Header) (dst : Path) (src : String) (dirMode : Bool) :
    FS × List FsOp × Option UntarErr :=
  match runEntries dst src dirMode ⟨fs0, [], false, []⟩ entries with
  | (st, some e) => (st.fs, st.trace, some e)
  | (st, none) =>
    if st.done = false then (st.fs, st.trace, some (UntarErr.emptyArchive src))
    else
      let fin := applyDirHdrs dst (st.fs, st.trace) st.dirHdrs
      (fin.1, fin.2, none)

/-! ## The Maven resolver -/

/-- Go `path/filepath.Base` for slash-separated paths. -/
def filepathBase (p : String) : String :=
  let parts := (splitOnChar '/' p).filter (fun c => c ≠ "")
  match parts.getLast? with
  | some b => b
  | none => if strHasPre p "/" then "/" else "."

/-- Go `path/filepath.Dir` for slash-separated paths without dot
components. -/
def filepathDir (p : String) : String :=
  let abr := strHasPre p "/"
  let parts := (splitOnChar '/' p).filter (fun c => c ≠ "")
  let d := parts.dropLast
  if d = [] then (if abr then "/" else ".")
  else (if abr then "/" else "") ++ joinStrings "/" d

/-- Go `path/filepath.Join` of two nonempty clean paths. -/
def filepathJoin (a b : String) : String :=
  if a = "" then b
  else if a = "/" then "/" ++ b
  else if b = "" then a
  else a ++ "/" ++ b

/-- A URL: everything before the path is untouched by the resolver and
kept opaque in `base`; the query string is a list of key-value pairs. -/
structure URL where
  base : String
  path : String
  query : List (String × String)
deriving DecidableEq, Repr

/-- Go `url.Values.Get`: the first value for the key, `""` if absent. -/
def URL.getQuery (u : URL) (k : String) : String :=
  match u.query.find? (fun e => decide (e.1 = k)) with
  | some e => e.2
  | none => ""

/-- The snapshot-metadata document structure (`Metadata` in the source). -/
structure SnapshotVersion where
  extension : String
  value : String
deriving DecidableEq, Repr

structure SnapshotVersions where
  versionList : List SnapshotVersion
deriving DecidableEq, Repr

structure SnapshotVerioning where
  snapshotVersions : SnapshotVersions
deriving DecidableEq, Repr

structure Metadata where
  groupId : String
  artifactId : String
  version : String
  versioning : SnapshotVerioning
deriving DecidableEq, Repr

/-- The zero value of `Metadata`, which `xml.Unmarshal` leaves behind when
its (unchecked) parse fails. -/
def Metadata.zero : Metadata := ⟨"", "", "", ⟨⟨[]⟩⟩⟩

/-- Observable events of a resolver run: delegated byte-fetches and the
lifecycle of the scoped temporary metadata file. -/
inductive MvnEvent where
  | fetch (dst : String) (u : URL)
  | tmpCreate (n : String)
  | tmpRemove (n : String)
deriving DecidableEq, Repr

inductive MvnErr where
  | missingParam (name : String)
  | tmpFileErr
  | metaFetchErr
  | metaReadErr
  | noSnapshotVersions (u : URL)
  | artifactFetchErr
deriving DecidableEq, Repr

/-- The artifact's base remote URL: the coordinate URL with the query
string stripped and the path extended by the group id (dots replaced by
path separators), the artifact id and the version. -/
def mvnBaseUrl (u : URL) (groupId artifactId version : String) : URL :=
  { base := u.base
    path := u.path ++ "/" ++ replaceChar '.' '/' groupId ++ "/" ++ artifactId ++ "/" ++ version
    query := [] }

/-- The snapshot metadata document's URL. -/
def metaUrlOf (artifactUrl : URL) : URL :=
  { artifactUrl with path := artifactUrl.path ++ "/maven-metadata.xml" }

/-- The final artifact URL: the base URL with
`/artifactId-ver.artType` appended to the path. -/
def artifactUrlOf (baseUrl : URL) (artifactId ver artType : String) : URL :=
  { baseUrl with path := baseUrl.path ++ "/" ++ artifactId ++ "-" ++ ver ++ "." ++ artType }

/-- Environment of one resolver run: the injected byte-fetch capability
(`HttpGet.GetFile`, `true` = success), whether creating and reading the
temporary metadata file succeed, the temporary file's name, and the
result of parsing the fetched metadata document (`none` = malformed). -/
structure MvnEnv where
  fetchOk : String → URL → Bool
  tmpOk : Bool
  tmpName : String
  readOk : Bool
  parsed : Option Metadata

/-- `MvnGetter.parseLastestSnapshotVersion`: fetch
`artifactUrl.path ++ "/maven-metadata.xml"` into a temporary file
(removed, via defer, on every exit path after its creation), read and
parse it without checking the parse error, and return the first listed
snapshot version value.  Returns the event trace and the result. -/
def parseLastestSnapshotVersion (env : MvnEnv) (artifactUrl : URL) :
    List MvnEvent × Except MvnErr String :=
  let mvnMetaUrl : URL := metaUrlOf artifactUrl
  if env.tmpOk = false then ([], Except.error MvnErr.tmpFileErr)
  else
    let n := env.tmpName
    if env.fetchOk n mvnMetaUrl = false then
      ([MvnEvent.tmpCreate n, MvnEvent.fetch n mvnMetaUrl, MvnEvent.tmpRemove n],
       Except.error MvnErr.metaFetchErr)
    else if env.readOk = false then
      ([MvnEvent.tmpCreate n, MvnEvent.fetch n mvnMetaUrl, MvnEvent.tmpRemove n],
       Except.error MvnErr.metaReadErr)
    else
      let meta := env.parsed.getD Metadata.zero
      match meta.versioning.snapshotVersions.versionList with
      | [] =>
          ([MvnEvent.tmpCreate n, MvnEvent.fetch n mvnMetaUrl, MvnEvent.tmpRemove n],
           Except.error (MvnErr.noSnapshotVersions mvnMetaUrl))
      | v :: _ =>
          ([MvnEvent.tmpCreate n, MvnEvent.fetch n mvnMetaUrl, MvnEvent.tmpRemove n],
           Except.ok v.value)

/-- `MvnGetter.GetFile dst u`: resolve the coordinate query parameters to
a concrete artifact URL (resolving a `-SNAPSHOT` version through the
metadata document) and delegate one byte-fetch for it.  Returns the event
trace and the result. -/
def GetFile (env : MvnEnv) (dst : String) (u : URL) : List MvnEvent × Except MvnErr Unit :=
  let groupId := u.getQuery "groupId"
  if groupId = "" then ([], Except.error (MvnErr.missingParam "groupId"))
  else
    let artifactId := u.getQuery "artifactId"
    if artifactId = "" then ([], Except.error (MvnErr.missingParam "artifactId"))
    else
      let version := u.getQuery "version"
      if version = "" then ([], Except.error (MvnErr.missingParam "version"))
      else
        let artType0 := u.getQuery "type"
        let artType := if artType0 = "" then "jar" else artType0
        let artifactUrl0 : URL := mvnBaseUrl u groupId artifactId version
        let step :=
          if strHasSuffix version "-SNAPSHOT" then parseLastestSnapshotVersion env artifactUrl0
          else ([], Except.ok version)
        match step with
        | (tr, Except.error e) => (tr, Except.error e)
        | (tr, Except.ok ver) =>
          let artifactUrl : URL := artifactUrlOf artifactUrl0 artifactId ver artType
          let dstFile := filepathJoin (filepathDir dst) (filepathBase artifactUrl.path)
          (tr ++ [MvnEvent.fetch dstFile artifactUrl],
           if env.fetchOk dstFile artifactUrl then Except.ok () else Except.error MvnErr.artifactFetchErr)

/-! ### Concrete example data for the resolver -/

def mvnMetaEx : Metadata :=
  ⟨"org.example", "test", "1.0.0-SNAPSHOT", ⟨⟨[⟨"jar", "1.0.0-20240101.010101-1"⟩]⟩⟩⟩

def mvnEnvEx : MvnEnv := ⟨fun _ _ => true, true, "/tmp/maven-metadata1", true, some mvnMetaEx⟩

/-- An environment whose metadata document is malformed: the unchecked
parse leaves the zero value behind. -/
def mvnEnvBad : MvnEnv := ⟨fun _ _ => true, true, "/tmp/maven-metadata1", true, none⟩

/-- An environment whose metadata fetch fails. -/
def mvnEnvNoFetch : MvnEnv := ⟨fun _ _ => false, true, "/tmp/maven-metadata1", true, none⟩

def mvnUrlSnap : URL :=
  ⟨"http://host", "/maven/repo",
   [("groupId", "org.example"), ("artifactId", "test"), ("version", "1.0.0-SNAPSHOT")]⟩

def mvnUrlRel : URL :=
  ⟨"http://host", "/maven/repo",
   [("groupId", "org.example"), ("artifactId", "test"), ("version", "1.0.0")]⟩

/-! ## Lemmas about headers and traces -/

theorem extended_not_dir (h : Header) (hx : h.isExtended = true) : h.isDirEntry = false := by
  cases ht : h.typeflag <;> simp_all [Header.isDirEntry, Header.isExtended]

theorem dir_not_extended (h : Header) (hd : h.isDirEntry = true) : h.isExtended = false := by
  cases ht : h.typeflag <;> simp_all [Header.isDirEntry, Header.isExtended]

theorem extended_not_file (h : Header) (hx : h.isExtended = true) : h.isFileEntry = false := by
  simp [Header.isFileEntry, hx]

theorem dir_not_file (h : Header) (hd : h.isDirEntry = true) : h.isFileEntry = false := by
  simp [Header.isFileEntry, hd]

theorem file_not_dir (h : Header) (hf : h.isFileEntry = true) : h.isDirEntry = false := by
  simp [Header.isFileEntry] at hf
  exact hf.2

theorem file_not_extended (h : Header) (hf : h.isFileEntry = true) : h.isExtended = false := by
  simp [Header.isFileEntry] at hf
  exact hf.1

theorem file_of_not_ext_not_dir (h : Header) (hx : h.isExtended = false)
    (hd : h.isDirEntry = false) : h.isFileEntry = true := by
  simp [Header.isFileEntry, hx, hd]

theorem countCreates_append (a b : List FsOp) :
    countCreates (a ++ b) = countCreates a + countCreates b := by
  simp [countCreates, List.filter_append]

theorem countCreates_mkdir (a : List FsOp) (p : Path) :
    countCreates (a ++ [FsOp.mkdirAll p]) = countCreates a := by
  simp [countCreates_append, countCreates, FsOp.isCreate]

theorem countFileEntries_cons (h : Header) (rest : List Header) :
    countFileEntries (h :: rest)
      = (if h.isFileEntry = true then 1 else 0) + countFileEntries rest := by
  simp only [countFileEntries, List.filter]
  split <;> simp_all [Nat.add_comm]

/-! ## Lemmas about one extraction step -/

theorem untarStep_extended (dst : Path) (src : String) (m : Bool) (st : UntarSt) (h : Header)
    (hx : h.isExtended = true) : untarStep dst src m st h = (st, none) := by
  simp [untarStep, hx]

theorem untarStep_dir_single (dst : Path) (src : String) (st : UntarSt) (h : Header)
    (hd : h.isDirEntry = true) :
    untarStep dst src false st h = (st, some (UntarErr.unexpectedDir src)) := by
  simp [untarStep, dir_not_extended h hd, hd]

theorem untarStep_dir_dirMode (dst : Path) (src : String) (st : UntarSt) (h : Header)
    (hd : h.isDirEntry = true) :
    untarStep dst src true st h =
      ({ st with
          fs := st.fs.mkdirAll (joinPath dst h.name)
          trace := st.trace ++ [FsOp.mkdirAll (joinPath dst h.name)]
          dirHdrs := st.dirHdrs ++ [h] }, none) := by
  simp [untarStep, dir_not_extended h hd, hd]

/-- On a successful step (in either mode), the `done` flag picks up file
entries, the pending directory list picks up directory entries, and the
trace only grows. -/
theorem untarStep_ok_spec (dst : Path) (src : String) (m : Bool) (st st1 : UntarSt) (h : Header)
    (hs : untarStep dst src m st h = (st1, none)) :
    st1.done = (st.done || h.isFileEntry)
    ∧ st1.dirHdrs = st.dirHdrs ++ (if h.isDirEntry = true then [h] else [])
    ∧ ∃ δ, st1.trace = st.trace ++ δ := by
  by_cases hx : h.isExtended = true
  · rw [untarStep_extended dst src m st h hx] at hs
    cases hs
    simp [extended_not_dir h hx, extended_not_file h hx]
  · by_cases hd : h.isDirEntry = true
    · cases m
      · rw [untarStep_dir_single dst src st h hd] at hs
        cases hs
      · rw [untarStep_dir_dirMode dst src st h hd] at hs
        cases hs
        simp [dir_not_file h hd, hd]
    · have hf : h.isFileEntry = true :=
        file_of_not_ext_not_dir h (by simpa using hx) (by simpa using hd)
      simp only [untarStep, hx, hd, hf, Bool.false_eq_true, if_neg, if_false] at hs
      by_cases hex : st.fs.pathExists (parentPath (if m then joinPath dst h.name else dst)) = true
      · simp only [hex, if_true] at hs
        by_cases hmd : (decide (m = false) && st.done) = true
        · rw [if_pos hmd] at hs
          simp at hs
        · rw [if_neg hmd] at hs
          cases hs
          simp [hf, hd]
      · simp only [hex, Bool.false_eq_true, if_false] at hs
        by_cases hmd : (decide (m = false) && st.done) = true
        · rw [if_pos hmd] at hs
          simp at hs
        · rw [if_neg hmd] at hs
          cases hs
          simp [hf, hd, List.append_assoc]

/-! ## Lemmas about the extraction loop -/

theorem runEntries_nil (dst : Path) (src : String) (m : Bool) (st : UntarSt) :
    runEntries dst src m st [] = (st, none) := rfl

theorem runEntries_append (dst : Path) (src : String) (m : Bool) (as bs : List Header) :
    ∀ st : UntarSt,
      runEntries dst src m st (as ++ bs)
        = match runEntries dst src m st as with
          | (st', none) => runEntries dst src m st' bs
          | (st', some e) => (st', some e) := by
  induction as with
  | nil => intro st; simp [runEntries]
  | cons a as ih =>
      intro st
      simp only [List.cons_append, runEntries]
      cases hs : untarStep dst src m st a with
      | mk st1 err => cases err <;> simp [ih]

theorem runEntries_allext (dst : Path) (src : String) (m : Bool) :
    ∀ (ents : List Header) (st : UntarSt), (∀ h ∈ ents, h.isExtended = true) →
      runEntries dst src m st ents = (st, none) := by
  intro ents
  induction ents with
  | nil => intro st _; rfl
  | cons h rest ih =>
      intro st hall
      have hx := hall h (by simp)
      simp only [runEntries, untarStep_extended dst src m st h hx]
      exact ih st (fun g hg => hall g (by simp [hg]))

theorem untarStep_dirMode_ok (dst : Path) (src : String) (st : UntarSt) (h : Header) :
    ∃ st1, untarStep dst src true st h = (st1, none) := by
  by_cases hx : h.isExtended = true
  · exact ⟨st, untarStep_extended dst src true st h hx⟩
  · by_cases hd : h.isDirEntry = true
    · exact ⟨_, untarStep_dir_dirMode dst src st h hd⟩
    · simp only [untarStep, hx, hd, Bool.false_eq_true, if_false]
      by_cases hex : st.fs.pathExists (parentPath (joinPath dst h.name)) = true <;>
        simp [hex]

theorem runEntries_dirMode_ok (dst : Path) (src : String) :
    ∀ (ents : List Header) (st : UntarSt),
      ∃ st', runEntries dst src true st ents = (st', none) := by
  intro ents
  induction ents with
  | nil => intro st; exact ⟨st, rfl⟩
  | cons h rest ih =>
      intro st
      obtain ⟨st1, h1⟩ := untarStep_dirMode_ok dst src st h
      obtain ⟨st', h2⟩ := ih st1
      exact ⟨st', by simp [runEntries, h1, h2]⟩

/-- On a successful run of the loop (in either mode), the final `done`
flag records whether any file entry occurred, the pending directory list
collects exactly the directory entries in order, and the trace only
grows. -/
theorem runEntries_ok_spec (dst : Path) (src : String) (m : Bool) :
    ∀ (ents : List Header) (st st' : UntarSt),
      runEntries dst src m st ents = (st', none) →
      st'.done = (st.done || ents.any Header.isFileEntry)
      ∧ st'.dirHdrs = st.dirHdrs ++ ents.filter Header.isDirEntry
      ∧ ∃ δ, st'.trace = st.trace ++ δ := by
  intro ents
  induction ents with
  | nil =>
      intro st st' hr
      simp only [runEntries] at hr
      injection hr with h1 h2
      subst h1
      simp
  | cons h rest ih =>
      intro st st' hr
      simp only [runEntries] at hr
      cases hs : untarStep dst src m st h with
      | mk st1 err =>
        rw [hs] at hr
        cases err with
        | some e => simp at hr
        | none =>
          obtain ⟨hdone, hdh, δ1, htr⟩ := untarStep_ok_spec dst src m st st1 h hs
          obtain ⟨hdone', hdh', δ2, htr'⟩ := ih st1 st' hr
          refine ⟨?_, ?_, ⟨δ1 ++ δ2, ?_⟩⟩
          · rw [hdone', hdone]
            simp [Bool.or_assoc]
          · rw [hdh', hdh, List.filter_cons]
            by_cases hdb : h.isDirEntry = true <;> simp [hdb]
          · rw [htr', htr, List.append_assoc]

theorem untarStep_no_empty (dst : Path) (src : String) (m : Bool) (st : UntarSt) (h : Header)
    (s : String) : (untarStep dst src m st h).2 ≠ some (UntarErr.emptyArchive s) := by
  by_cases hx : h.isExtended = true
  · simp [untarStep_extended dst src m st h hx]
  · by_cases hd : h.isDirEntry = true
    · cases m
      · simp [untarStep_dir_single dst src st h hd]
      · simp [untarStep_dir_dirMode dst src st h hd]
    · simp only [untarStep, hx, hd, Bool.false_eq_true, if_false]
      by_cases hex : st.fs.pathExists (parentPath (if m then joinPath dst h.name else dst)) = true <;>
        simp [hex] <;> split <;> simp

theorem runEntries_no_empty (dst : Path) (src : String) (m : Bool) :
    ∀ (ents : List Header) (st st' : UntarSt) (s : String),
      runEntries dst src m st ents = (st', some (UntarErr.emptyArchive s)) → False := by
  intro ents
  induction ents with
  | nil =>
      intro st st' s hr
      simp [runEntries] at hr
  | cons h rest ih =>
      intro st st' s hr
      simp only [runEntries] at hr
      cases hs : untarStep dst src m st h with
      | mk st1 err =>
        rw [hs] at hr
        cases err with
        | none => exact ih st1 st' s hr
        | some e =>
          injection hr with h1 h2
          exact untarStep_no_empty dst src m st h s (by rw [hs]; exact h2)

theorem ext_of_not_file_not_dir (h : Header) (hf : h.isFileEntry = false)
    (hd : h.isDirEntry = false) : h.isExtended = true := by
  simp [Header.isFileEntry, hd] at hf
  exact hf

/-- In single-file mode, a file entry reached with `done` already set
fails with the multiple-files error before writing anything. -/
theorem untarStep_file_done_single (dst : Path) (src : String) (st : UntarSt) (h : Header)
    (hf : h.isFileEntry = true) (hdone : st.done = true) :
    ∃ st1, untarStep dst src false st h = (st1, some (UntarErr.multipleFiles src))
      ∧ countCreates st1.trace = countCreates st.trace ∧ st1.done = true := by
  have hx := file_not_extended h hf
  have hd := file_not_dir h hf
  by_cases hex : st.fs.pathExists (parentPath dst) = true
  · exact ⟨st, by simp [untarStep, hx, hd, hex, hdone], rfl, hdone⟩
  · refine ⟨{ st with
        fs := st.fs.mkdirAll (parentPath dst)
        trace := st.trace ++ [FsOp.mkdirAll (parentPath dst)] }, ?_, ?_, hdone⟩
    · simp [untarStep, hx, hd, hex, hdone]
    · simp [countCreates_mkdir]

/-- In single-file mode, a file entry reached with `done` still unset is
written to the destination and sets `done`. -/
theorem untarStep_file_notdone_single (dst : Path) (src : String) (st : UntarSt) (h : Header)
    (hf : h.isFileEntry = true) (hdone : st.done = false) :
    ∃ st1, untarStep dst src false st h = (st1, none)
      ∧ countCreates st1.trace = countCreates st.trace + 1 ∧ st1.done = true := by
  have hx := file_not_extended h hf
  have hd := file_not_dir h hf
  by_cases hex : st.fs.pathExists (parentPath dst) = true
  · refine ⟨{ st with
        fs := ((st.fs.createFile dst h.content).chmod dst h.mode).chtimes dst
          h.accessTime h.modTime
        done := true
        trace := st.trace ++ [FsOp.create dst h.content, FsOp.chmod dst h.mode,
          FsOp.chtimes dst h.accessTime h.modTime] }, ?_, ?_, rfl⟩
    · simp [untarStep, hx, hd, hex, hdone]
    · simp [countCreates_append, countCreates, List.filter, FsOp.isCreate]
  · refine ⟨{ st with
        fs := (((st.fs.mkdirAll (parentPath dst)).createFile dst h.content).chmod dst
          h.mode).chtimes dst h.accessTime h.modTime
        done := true
        trace := st.trace ++ [FsOp.mkdirAll (parentPath dst)] ++
          [FsOp.create dst h.content, FsOp.chmod dst h.mode,
           FsOp.chtimes dst h.accessTime h.modTime] }, ?_, ?_, rfl⟩
    · simp [untarStep, hx, hd, hex, hdone]
    · simp [countCreates_append, countCreates, List.filter, FsOp.isCreate]

/-- In single-file mode, a run over entries holding no directory entry
and at most one file entry (counting an already-set `done` flag) succeeds,
recording one file creation per file entry. -/
theorem sf_run_ok (dst : Path) (src : String) :
    ∀ (ents : List Header) (st : UntarSt),
      (∀ h ∈ ents, h.isDirEntry = false) →
      countFileEntries ents + (if st.done = true then 1 else 0) ≤ 1 →
      ∃ st', runEntries dst src false st ents = (st', none)
        ∧ st'.done = (st.done || decide (1 ≤ countFileEntries ents))
        ∧ countCreates st'.trace = countCreates st.trace + countFileEntries ents := by
  intro ents
  induction ents with
  | nil =>
      intro st hnd hcnt
      exact ⟨st, rfl, by simp [countFileEntries], by simp [countFileEntries]⟩
  | cons h rest ih =>
      intro st hnd hcnt
      rw [countFileEntries_cons] at hcnt
      by_cases hf : h.isFileEntry = true
      · rw [if_pos hf] at hcnt
        have hdone : st.done = false := by
          cases hdn : st.done
          · rfl
          · rw [hdn] at hcnt
            simp at hcnt
        obtain ⟨st1, hs, hc, hd1⟩ := untarStep_file_notdone_single dst src st h hf hdone
        have hrest0 : countFileEntries rest = 0 := by
          rw [hdone] at hcnt
          simp at hcnt
          omega
        obtain ⟨st', hr, hdone', hcnt'⟩ :=
          ih st1 (fun g hg => hnd g (by simp [hg])) (by rw [hrest0, hd1]; simp)
        refine ⟨st', by simp [runEntries, hs, hr], ?_, ?_⟩
        · rw [hdone', hd1, countFileEntries_cons, if_pos hf, hdone]
          simp
        · rw [hcnt', hc, countFileEntries_cons, if_pos hf, hrest0]
      · have hfn : h.isFileEntry = false := by simpa using hf
        rw [if_neg hf] at hcnt
        have hx : h.isExtended = true := ext_of_not_file_not_dir h hfn (hnd h (by simp))
        obtain ⟨st', hr, hdone', hcnt'⟩ :=
          ih st (fun g hg => hnd g (by simp [hg])) (by omega)
        refine ⟨st', ?_, ?_, ?_⟩
        · simp [runEntries, untarStep_extended dst src false st h hx, hr]
        · rw [hdone', countFileEntries_cons, if_neg hf]
          simp
        · rw [hcnt', countFileEntries_cons, if_neg hf]
          simp

/-- In single-file mode, a run over entries holding no directory entry
but two or more file entries (counting an already-set `done` flag) fails
with the multiple-files error, before the violating file is written. -/
theorem sf_run_two_files (dst : Path) (src : String) :
    ∀ (ents : List Header) (st : UntarSt),
      (∀ h ∈ ents, h.isDirEntry = false) →
      2 ≤ countFileEntries ents + (if st.done = true then 1 else 0) →
      ∃ st', runEntries dst src false st ents = (st', some (UntarErr.multipleFiles src))
        ∧ countCreates st'.trace
            = countCreates st.trace + (if st.done = true then 0 else 1) := by
  intro ents
  induction ents with
  | nil =>
      intro st hnd hcnt
      simp [countFileEntries] at hcnt
      cases hdn : st.done <;> rw [hdn] at hcnt <;> simp at hcnt
  | cons h rest ih =>
      intro st hnd hcnt
      rw [countFileEntries_cons] at hcnt
      by_cases hf : h.isFileEntry = true
      · cases hdn : st.done
        · obtain ⟨st1, hs, hc, hd1⟩ := untarStep_file_notdone_single dst src st h hf hdn
          rw [if_pos hf, hdn] at hcnt
          simp at hcnt
          obtain ⟨st', hr, hcnt'⟩ :=
            ih st1 (fun g hg => hnd g (by simp [hg])) (by rw [hd1]; simp; omega)
          refine ⟨st', by simp [runEntries, hs, hr], ?_⟩
          rw [hcnt', hc, hd1]
          simp
        · obtain ⟨st1, hs, hc, hd1⟩ := untarStep_file_done_single dst src st h hf hdn
          refine ⟨st1, by simp [runEntries, hs], ?_⟩
          rw [hc]
          simp
      · have hfn : h.isFileEntry = false := by simpa using hf
        rw [if_neg hf] at hcnt
        have hx : h.isExtended = true := ext_of_not_file_not_dir h hfn (hnd h (by simp))
        obtain ⟨st', hr, hcnt'⟩ := ih st (fun g hg => hnd g (by simp [hg])) (by omega)
        exact ⟨st', by simp [runEntries, untarStep_extended dst src false st h hx, hr], hcnt'⟩

/-- A successful single-file-mode run implies the entries held no
directory entry. -/
theorem sf_success_no_dir (dst : Path) (src : String) :
    ∀ (ents : List Header) (st st' : UntarSt),
      runEntries dst src false st ents = (st', none) →
      ∀ h ∈ ents, h.isDirEntry = false := by
  intro ents
  induction ents with
  | nil =>
      intro st st' _ g hg
      cases hg
  | cons h rest ih =>
      intro st st' hr g hg
      simp only [runEntries] at hr
      by_cases hd : h.isDirEntry = true
      · rw [untarStep_dir_single dst src st h hd] at hr
        simp at hr
      · cases hs : untarStep dst src false st h with
        | mk st1 err =>
          rw [hs] at hr
          cases err with
          | some e => simp at hr
          | none =>
            rcases List.mem_cons.mp hg with rfl | hg'
            · simpa using hd
            · exact ih st1 st' hr g hg'

/-- The deferred pass appends exactly one Chtimes per recorded directory
header, in order. -/
theorem applyDirHdrs_trace (dst : Path) :
    ∀ (hdrs : List Header) (fs : FS) (tr : List FsOp),
      (applyDirHdrs dst (fs, tr) hdrs).2
        = tr ++ hdrs.map (fun h => FsOp.chtimes (joinPath dst h.name) h.accessTime h.modTime) := by
  intro hdrs
  induction hdrs with
  | nil =>
      intro fs tr
      simp [applyDirHdrs]
  | cons h t ih =>
      intro fs tr
      have step := ih (fs.chtimes (joinPath dst h.name) h.accessTime h.modTime)
        (tr ++ [FsOp.chtimes (joinPath dst h.name) h.accessTime h.modTime])
      simp only [applyDirHdrs, List.foldl_cons] at step ⊢
      rw [step]
      simp

theorem assocFind_set_self {α : Type} (l : List (Path × α)) (k : Path) (v : α) :
    assocFind (assocSet l k v) k = some v := by
  simp [assocFind, assocSet, List.find?]

theorem touchDir_files (fs : FS) (p : Path) : (FS.touchDir fs p).files = fs.files := by
  unfold FS.touchDir
  split <;> rfl

theorem findFile_createFile (fs : FS) (p : Path) (c : List Nat) :
    ∃ md, (fs.createFile p c).findFile p = some ⟨c, md, none⟩ := by
  unfold FS.createFile FS.findFile
  cases hf : assocFind fs.files p with
  | some fm => exact ⟨fm.mode, by simp [assocFind_set_self]⟩
  | none =>
      refine ⟨438, ?_⟩
      rw [touchDir_files]
      simp [assocFind_set_self]

theorem findFile_chmod_self (fs : FS) (p : Path) (md : Nat) (fm : FileMeta)
    (hf : fs.findFile p = some fm) :
    (fs.chmod p md).findFile p = some ⟨fm.content, md, fm.times⟩ := by
  unfold FS.findFile at hf ⊢
  unfold FS.chmod
  rw [hf]
  simp [assocFind_set_self]

theorem findFile_chtimes_self (fs : FS) (p : Path) (a m : Int) (fm : FileMeta)
    (hf : fs.findFile p = some fm) :
    (fs.chtimes p a m).findFile p = some ⟨fm.content, fm.mode, some (a, m)⟩ := by
  unfold FS.findFile at hf ⊢
  unfold FS.chtimes
  rw [hf]
  simp [assocFind_set_self]

/-- The create/copy, chmod, chtimes sequence leaves exactly the entry's
content, mode and archive times at the written path. -/
theorem findFile_write_chain (fs : FS) (p : Path) (c : List Nat) (md : Nat) (a m : Int) :
    (((fs.createFile p c).chmod p md).chtimes p a m).findFile p = some ⟨c, md, some (a, m)⟩ := by
  obtain ⟨md0, h1⟩ := findFile_createFile fs p c
  have h2 := findFile_chmod_self _ p md _ h1
  have h3 := findFile_chtimes_self _ p a m _ h2
  simpa using h3

/-- Rewrite `untar` through a failing run of its loop. -/
theorem untar_eq_of_run_err (fs0 : FS) (ents : List Header) (dst : Path) (src : String)
    (m : Bool) (st' : UntarSt) (e : UntarErr)
    (hr : runEntries dst src m ⟨fs0, [], false, []⟩ ents = (st', some e)) :
    untar fs0 ents dst src m = (st'.fs, st'.trace, some e) := by
  unfold untar
  rw [hr]

/-- Rewrite `untar` through a successful run of its loop. -/
theorem untar_eq_of_run_ok (fs0 : FS) (ents : List Header) (dst : Path) (src : String)
    (m : Bool) (st' : UntarSt)
    (hr : runEntries dst src m ⟨fs0, [], false, []⟩ ents = (st', none)) :
    untar fs0 ents dst src m
      = if st'.done = false then (st'.fs, st'.trace, some (UntarErr.emptyArchive src))
        else ((applyDirHdrs dst (st'.fs, st'.trace) st'.dirHdrs).1,
              (applyDirHdrs dst (st'.fs, st'.trace) st'.dirHdrs).2, none) := by
  unfold untar
  rw [hr]

theorem effAll_iff_noFile (ents : List Header) :
    (effectiveEntries ents).all Header.isDirEntry = true
      ↔ ∀ h ∈ ents, h.isFileEntry = false := by
  simp only [effectiveEntries, List.all_eq_true, List.mem_filter]
  constructor
  · intro hp g hg
    by_cases hx : g.isExtended = true
    · exact extended_not_file g hx
    · exact dir_not_file g (hp g ⟨hg, by simpa using hx⟩)
  · intro hp g hg
    obtain ⟨hgm, hgx⟩ := hg
    by_cases hdg : g.isDirEntry = true
    · exact hdg
    · have hfg := file_of_not_ext_not_dir g (by simpa using hgx) (by simpa using hdg)
      rw [hp g hgm] at hfg
      cases hfg

theorem effEmpty_iff_allExt (ents : List Header) :
    effectiveEntries ents = [] ↔ ∀ h ∈ ents, h.isExtended = true := by
  simp [effectiveEntries, List.filter_eq_nil_iff]

/-- C9: in directory mode the on-disk path is the plain lexical join of
the destination root with the entry name, with no containment check: an
entry named `"../evil"` extracted below `["tmp", "dst"]` succeeds and
creates a file at `["tmp", "evil"]`, outside the destination root. -/
theorem untar_path_traversal_escape :
    joinPath ["tmp", "dst"] "../evil" = ["tmp", "evil"]
    ∧ (untar FS.empty [⟨"../evil", TypeFlag.reg, [7], 420, 1, 2⟩] ["tmp", "dst"] "t" true).2.2
        = none
    ∧ (untar FS.empty [⟨"../evil", TypeFlag.reg, [7], 420, 1, 2⟩] ["tmp", "dst"] "t" true).1.findFile
        ["tmp", "evil"] = some ⟨[7], 420, some (1, 2)⟩
    ∧ isUnder ["tmp", "dst"] ["tmp", "evil"] = false :=
  ⟨rfl, rfl, rfl, rfl⟩

/-- C1 counterexample: a directory appearing as two explicit entries has
its timestamps applied twice by the deferred pass, not exactly once: the
extraction succeeds and the trace holds two Chtimes operations on
`["r", "d"]`. -/
theorem untar_duplicate_dir_entry_chtimes_twice :
    (untar FS.empty
      [⟨"d", TypeFlag.dir, [], 493, 1, 2⟩, ⟨"d/f", TypeFlag.reg, [1], 420, 5, 6⟩,
       ⟨"d", TypeFlag.dir, [], 493, 3, 4⟩] ["r"] "t" true).2.2 = none
    ∧ countChtimesAt (untar FS.empty
      [⟨"d", TypeFlag.dir, [], 493, 1, 2⟩, ⟨"d/f", TypeFlag.reg, [1], 420, 5, 6⟩,
       ⟨"d", TypeFlag.dir, [], 493, 3, 4⟩] ["r"] "t" true).2.1 ["r", "d"] = 2 :=
  ⟨rfl, rfl⟩

/-- C3 counterexample: an archive holding one directory entry and no file
entry, extracted in directory mode, fails with the empty-archive error
even though the directory entry was materialized on disk (the trace holds
its MkdirAll and the directory exists in the final state). -/
theorem untar_empty_archive_despite_dirs :
    (untar FS.empty [⟨"d", TypeFlag.dir, [], 493, 1, 2⟩] ["r"] "t" true).2.2
      = some (UntarErr.emptyArchive "t")
    ∧ (untar FS.empty [⟨"d", TypeFlag.dir, [], 493, 1, 2⟩] ["r"] "t" true).2.1
      = [FsOp.mkdirAll ["r", "d"]]
    ∧ (untar FS.empty [⟨"d", TypeFlag.dir, [], 493, 1, 2⟩] ["r"] "t" true).1.findDir ["r", "d"]
      = some none :=
  ⟨rfl, rfl, rfl⟩

/-- C2 counterexample: in single-file mode, an archive with a file entry
before its directory entry fails with the expected-a-single-file error but
the file has already been written to the destination; and an archive with
two file entries before the directory entry fails with the multiple-files
error instead of the expected-a-single-file error. -/
theorem untar_single_file_dir_entry_cex :
    ((untar FS.empty [⟨"a", TypeFlag.reg, [1], 420, 1, 2⟩, ⟨"d", TypeFlag.dir, [], 493, 1, 2⟩]
        ["out", "f"] "t" false).2.2 = some (UntarErr.unexpectedDir "t")
     ∧ (untar FS.empty [⟨"a", TypeFlag.reg, [1], 420, 1, 2⟩, ⟨"d", TypeFlag.dir, [], 493, 1, 2⟩]
        ["out", "f"] "t" false).1.findFile ["out", "f"] = some ⟨[1], 420, some (1, 2)⟩)
    ∧ (untar FS.empty
        [⟨"a", TypeFlag.reg, [1], 420, 1, 2⟩, ⟨"b", TypeFlag.reg, [2], 420, 1, 2⟩,
         ⟨"d", TypeFlag.dir, [], 493, 1, 2⟩] ["out", "f"] "t" false).2.2
        = some (UntarErr.multipleFiles "t") :=
  ⟨⟨rfl, rfl⟩, rfl⟩

/-- C4 counterexample: an archive with two regular-file entries separated
by a directory entry, extracted in single-file mode, fails with the
expected-a-single-file error rather than the multiple-files error. -/
theorem untar_second_file_error_kind_cex :
    (untar FS.empty
      [⟨"a", TypeFlag.reg, [1], 420, 1, 2⟩, ⟨"d", TypeFlag.dir, [], 493, 1, 2⟩,
       ⟨"b", TypeFlag.reg, [2], 420, 1, 2⟩] ["out", "f"] "t" false).2.2
      = some (UntarErr.unexpectedDir "t") :=
  rfl

/-- C1 (amended): in every directory-mode extraction that succeeds, the
operation trace ends with exactly one deferred Chtimes per directory
entry, in the order the entries appeared, after all other extraction
activity (each directory appearing as exactly one entry thus has its
recorded times applied exactly once); and in the file-before-directory
archive both the file and the later-declared directory end up with their
archive-recorded timestamps. -/
theorem untar_deferred_dir_chtimes :
    (∀ (fs0 : FS) (ents : List Header) (dst : Path) (src : String),
      (untar fs0 ents dst src true).2.2 = none →
      ∃ tr₀, (untar fs0 ents dst src true).2.1
        = tr₀ ++ (ents.filter Header.isDirEntry).map
            (fun h => FsOp.chtimes (joinPath dst h.name) h.accessTime h.modTime))
    ∧ ((untar FS.empty [⟨"d/f", TypeFlag.reg, [1], 420, 10, 11⟩,
          ⟨"d", TypeFlag.dir, [], 493, 20, 21⟩] ["r"] "t" true).2.2 = none
       ∧ (untar FS.empty [⟨"d/f", TypeFlag.reg, [1], 420, 10, 11⟩,
          ⟨"d", TypeFlag.dir, [], 493, 20, 21⟩] ["r"] "t" true).1.findFile ["r", "d", "f"]
          = some ⟨[1], 420, some (10, 11)⟩
       ∧ (untar FS.empty [⟨"d/f", TypeFlag.reg, [1], 420, 10, 11⟩,
          ⟨"d", TypeFlag.dir, [], 493, 20, 21⟩] ["r"] "t" true).1.findDir ["r", "d"]
          = some (some (20, 21))) := by
  constructor
  · intro fs0 ents dst src hok
    obtain ⟨st', hr⟩ := runEntries_dirMode_ok dst src ents ⟨fs0, [], false, []⟩
    obtain ⟨hdone, hdh, δ, htr⟩ := runEntries_ok_spec dst src true ents _ st' hr
    have hu := untar_eq_of_run_ok fs0 ents dst src true st' hr
    cases hdn : st'.done
    · rw [hu] at hok
      rw [hdn] at hok
      simp at hok
    · rw [hu]
      rw [hdn]
      simp only [Bool.true_eq_false, if_false]
      refine ⟨st'.trace, ?_⟩
      rw [applyDirHdrs_trace dst st'.dirHdrs st'.fs st'.trace, hdh]
      simp
  · exact ⟨rfl, rfl, rfl⟩

/-- Closed instance of the quantified part of `untar_deferred_dir_chtimes`. -/
theorem untar_deferred_dir_chtimes_witness :
    ∃ tr₀, (untar FS.empty [⟨"d", TypeFlag.dir, [], 493, 20, 21⟩,
        ⟨"d/f", TypeFlag.reg, [1], 420, 10, 11⟩] ["r"] "t" true).2.1
      = tr₀ ++ (([⟨"d", TypeFlag.dir, [], 493, 20, 21⟩,
          ⟨"d/f", TypeFlag.reg, [1], 420, 10, 11⟩] : List Header).filter
            Header.isDirEntry).map
          (fun h => FsOp.chtimes (joinPath ["r"] h.name) h.accessTime h.modTime) :=
  untar_deferred_dir_chtimes.1 FS.empty
    [⟨"d", TypeFlag.dir, [], 493, 20, 21⟩, ⟨"d/f", TypeFlag.reg, [1], 420, 10, 11⟩]
    ["r"] "t" rfl

/-- C2 (amended): in single-file mode, every archive containing a
directory entry fails; the failure is the expected-a-single-file error
provided at most one file entry precedes the first directory entry, and
nothing at all has been written provided no file entry precedes it
(a file entry before the directory entry has already been extracted when
the failure is raised, as `untar_single_file_dir_entry_cex` shows). -/
theorem untar_single_file_dir_entry_fails (fs0 : FS) (dst : Path) (src : String)
    (pre post : List Header) (d : Header)
    (hd : d.isDirEntry = true) (hpre : ∀ h ∈ pre, h.isDirEntry = false) :
    (untar fs0 (pre ++ d :: post) dst src false).2.2 ≠ none
    ∧ (countFileEntries pre ≤ 1 →
        (untar fs0 (pre ++ d :: post) dst src false).2.2 = some (UntarErr.unexpectedDir src))
    ∧ (countFileEntries pre = 0 → (untar fs0 (pre ++ d :: post) dst src false).2.1 = []) := by
  have hA : countFileEntries pre ≤ 1 →
      (untar fs0 (pre ++ d :: post) dst src false).2.2
        = some (UntarErr.unexpectedDir src) := by
    intro hc
    obtain ⟨st', hr, hdone', hcc⟩ :=
      sf_run_ok dst src pre ⟨fs0, [], false, []⟩ hpre (by simpa using hc)
    have hrun : runEntries dst src false ⟨fs0, [], false, []⟩ (pre ++ d :: post)
        = (st', some (UntarErr.unexpectedDir src)) := by
      rw [runEntries_append, hr]
      simp only [runEntries, untarStep_dir_single dst src st' d hd]
    rw [untar_eq_of_run_err fs0 (pre ++ d :: post) dst src false st' _ hrun]
  have hB : 2 ≤ countFileEntries pre →
      (untar fs0 (pre ++ d :: post) dst src false).2.2
        = some (UntarErr.multipleFiles src) := by
    intro hc
    obtain ⟨st', hr, hcc⟩ :=
      sf_run_two_files dst src pre ⟨fs0, [], false, []⟩ hpre (by simpa using hc)
    have hrun : runEntries dst src false ⟨fs0, [], false, []⟩ (pre ++ d :: post)
        = (st', some (UntarErr.multipleFiles src)) := by
      rw [runEntries_append, hr]
    rw [untar_eq_of_run_err fs0 (pre ++ d :: post) dst src false st' _ hrun]
  have hC : countFileEntries pre = 0 →
      (untar fs0 (pre ++ d :: post) dst src false).2.1 = [] := by
    intro hc0
    have hallx : ∀ h ∈ pre, h.isExtended = true := by
      intro g hg
      have hgf : g.isFileEntry = false := by
        have hlen : pre.filter Header.isFileEntry = [] :=
          List.length_eq_zero.mp hc0
        have := List.filter_eq_nil_iff.mp hlen g hg
        simpa using this
      exact ext_of_not_file_not_dir g hgf (hpre g hg)
    have hrun : runEntries dst src false ⟨fs0, [], false, []⟩ (pre ++ d :: post)
        = (⟨fs0, [], false, []⟩, some (UntarErr.unexpectedDir src)) := by
      rw [runEntries_append, runEntries_allext dst src false pre ⟨fs0, [], false, []⟩ hallx]
      simp only [runEntries, untarStep_dir_single dst src ⟨fs0, [], false, []⟩ d hd]
    rw [untar_eq_of_run_err fs0 (pre ++ d :: post) dst src false _ _ hrun]
  refine ⟨?_, hA, hC⟩
  by_cases hc : countFileEntries pre ≤ 1
  · rw [hA hc]
    simp
  · rw [hB (by omega)]
    simp

/-- Closed instance of `untar_single_file_dir_entry_fails`. -/
theorem untar_single_file_dir_entry_fails_witness :
    (untar FS.empty [⟨"x", TypeFlag.xHeader, [], 0, 0, 0⟩, ⟨"d", TypeFlag.dir, [], 493, 1, 2⟩]
      ["out", "f"] "t" false).2.2 = some (UntarErr.unexpectedDir "t")
    ∧ (untar FS.empty [⟨"x", TypeFlag.xHeader, [], 0, 0, 0⟩, ⟨"d", TypeFlag.dir, [], 493, 1, 2⟩]
      ["out", "f"] "t" false).2.1 = [] :=
  ⟨(untar_single_file_dir_entry_fails FS.empty ["out", "f"] "t"
      [⟨"x", TypeFlag.xHeader, [], 0, 0, 0⟩] [] ⟨"d", TypeFlag.dir, [], 493, 1, 2⟩
      (by decide) (by decide)).2.1 (by decide),
   (untar_single_file_dir_entry_fails FS.empty ["out", "f"] "t"
      [⟨"x", TypeFlag.xHeader, [], 0, 0, 0⟩] [] ⟨"d", TypeFlag.dir, [], 493, 1, 2⟩
      (by decide) (by decide)).2.2 (by decide)⟩

/-- C3 (amended): extraction fails with the empty-archive error (naming
the source label) exactly when no file entry was materialized and, in
single-file mode, no directory entry occurred either: equivalently, all
non-metadata entries are directories, and in single-file mode there are
none at all.  In particular a zero-entry archive fails with the
empty-archive error in both modes.  (Directory entries materialized in
directory mode do not prevent the error, as
`untar_empty_archive_despite_dirs` shows.) -/
theorem untar_empty_archive_iff (fs0 : FS) (ents : List Header) (dst : Path) (src : String)
    (m : Bool) :
    (untar fs0 ents dst src m).2.2 = some (UntarErr.emptyArchive src)
    ↔ ((effectiveEntries ents).all Header.isDirEntry = true
        ∧ (m = true ∨ effectiveEntries ents = [])) := by
  constructor
  · intro hok
    cases hrr : runEntries dst src m ⟨fs0, [], false, []⟩ ents with
    | mk st' err =>
      cases err with
      | some e =>
          rw [untar_eq_of_run_err fs0 ents dst src m st' e hrr] at hok
          simp only [Option.some.injEq] at hok
          rw [hok] at hrr
          exact absurd hrr (fun hh => runEntries_no_empty dst src m ents _ st' src hh)
      | none =>
          obtain ⟨hdone, hdh, δ, htr⟩ := runEntries_ok_spec dst src m ents _ st' hrr
          have hu := untar_eq_of_run_ok fs0 ents dst src m st' hrr
          cases hdn : st'.done
          · have hnofile : ∀ h ∈ ents, h.isFileEntry = false := by
              rw [hdn] at hdone
              have hany : ents.any Header.isFileEntry = false := by
                simpa using hdone.symm
              intro g hg
              have := List.any_eq_false.mp hany g hg
              simpa using this
            refine ⟨(effAll_iff_noFile ents).mpr hnofile, ?_⟩
            cases m
            · right
              have hnd := sf_success_no_dir dst src ents _ st' hrr
              exact (effEmpty_iff_allExt ents).mpr
                (fun g hg => ext_of_not_file_not_dir g (hnofile g hg) (hnd g hg))
            · left
              rfl
          · rw [hu, hdn] at hok
            simp at hok
  · rintro ⟨hall, hm⟩
    have hnofile : ∀ h ∈ ents, h.isFileEntry = false := (effAll_iff_noFile ents).mp hall
    cases m
    · rcases hm with h1 | h2
      · cases h1
      · have hallx : ∀ h ∈ ents, h.isExtended = true := (effEmpty_iff_allExt ents).mp h2
        have hrun := runEntries_allext dst src false ents ⟨fs0, [], false, []⟩ hallx
        rw [untar_eq_of_run_ok fs0 ents dst src false _ hrun]
        simp
    · obtain ⟨st', hr⟩ := runEntries_dirMode_ok dst src ents ⟨fs0, [], false, []⟩
      obtain ⟨hdone, hdh, δ, htr⟩ := runEntries_ok_spec dst src true ents _ st' hr
      have hdn : st'.done = false := by
        rw [hdone]
        simp only [Bool.false_or]
        exact List.any_eq_false.mpr (fun g hg => by simp [hnofile g hg])
      rw [untar_eq_of_run_ok fs0 ents dst src true st' hr, hdn]
      simp

/-- Closed instance of `untar_empty_archive_iff`: the zero-entry archive
fails with the empty-archive error in both modes. -/
theorem untar_empty_archive_iff_witness :
    (untar FS.empty [] ["r"] "t" true).2.2 = some (UntarErr.emptyArchive "t")
    ∧ (untar FS.empty [] ["out", "f"] "t" false).2.2 = some (UntarErr.emptyArchive "t") :=
  ⟨(untar_empty_archive_iff FS.empty [] ["r"] "t" true).mpr (by decide),
   (untar_empty_archive_iff FS.empty [] ["out", "f"] "t" false).mpr (by decide)⟩

/-- C4 (amended): in single-file mode, an archive in which one file entry
and no directory entry precede a second file entry fails with the
multiple-files error when that second file entry is reached, before the
second file is written: exactly one file creation is in the trace. -/
theorem untar_second_file_multiple_files (fs0 : FS) (dst : Path) (src : String)
    (pre post : List Header) (f2 : Header)
    (hpre : ∀ h ∈ pre, h.isDirEntry = false) (hc1 : countFileEntries pre = 1)
    (hf2 : f2.isFileEntry = true) :
    (untar fs0 (pre ++ f2 :: post) dst src false).2.2 = some (UntarErr.multipleFiles src)
    ∧ countCreates (untar fs0 (pre ++ f2 :: post) dst src false).2.1 = 1 := by
  obtain ⟨st', hr, hdone', hcc⟩ :=
    sf_run_ok dst src pre ⟨fs0, [], false, []⟩ hpre (by simp [hc1])
  have hdone2 : st'.done = true := by
    rw [hdone', hc1]
    simp
  obtain ⟨st1, hs, hcc1, -⟩ := untarStep_file_done_single dst src st' f2 hf2 hdone2
  have hrun : runEntries dst src false ⟨fs0, [], false, []⟩ (pre ++ f2 :: post)
      = (st1, some (UntarErr.multipleFiles src)) := by
    rw [runEntries_append, hr]
    simp only [runEntries]
    rw [hs]
  rw [untar_eq_of_run_err fs0 (pre ++ f2 :: post) dst src false st1 _ hrun]
  refine ⟨rfl, ?_⟩
  rw [hcc1, hcc, hc1]
  simp [countCreates]

/-- Closed instance of `untar_second_file_multiple_files`. -/
theorem untar_second_file_multiple_files_witness :
    (untar FS.empty [⟨"a", TypeFlag.reg, [1], 420, 1, 2⟩, ⟨"b", TypeFlag.reg, [2], 420, 3, 4⟩]
      ["out", "f"] "t" false).2.2 = some (UntarErr.multipleFiles "t")
    ∧ countCreates (untar FS.empty
        [⟨"a", TypeFlag.reg, [1], 420, 1, 2⟩, ⟨"b", TypeFlag.reg, [2], 420, 3, 4⟩]
        ["out", "f"] "t" false).2.1 = 1 :=
  untar_second_file_multiple_files FS.empty ["out", "f"] "t"
    [⟨"a", TypeFlag.reg, [1], 420, 1, 2⟩] [] ⟨"b", TypeFlag.reg, [2], 420, 3, 4⟩
    (by decide) (by decide) (by decide)

/-- C10: after the extended-metadata skip, the loop distinguishes only
directory from non-directory entries: in directory mode every
non-directory entry (symlinks included) is written as a regular file by
the create/copy, chmod, chtimes sequence — carrying the payload the
reader yields, which is empty for a symlink — sets the `done` flag, and
in single-file mode such an entry reached after a materialized file
triggers the multiple-files error. -/
theorem untar_nondir_entry_regular_file (st : UntarSt) (h : Header) (dst : Path) (src : String)
    (hx : h.isExtended = false) (hd : h.isDirEntry = false) :
    (untarStep dst src true st h).2 = none
    ∧ (untarStep dst src true st h).1.done = true
    ∧ (untarStep dst src true st h).1.fs.findFile (joinPath dst h.name)
        = some ⟨h.content, h.mode, some (h.accessTime, h.modTime)⟩
    ∧ (∃ pre, (untarStep dst src true st h).1.trace
        = st.trace ++ pre ++ [FsOp.create (joinPath dst h.name) h.content,
            FsOp.chmod (joinPath dst h.name) h.mode,
            FsOp.chtimes (joinPath dst h.name) h.accessTime h.modTime])
    ∧ (st.done = true → (untarStep dst src false st h).2 = some (UntarErr.multipleFiles src)) := by
  have hf : h.isFileEntry = true := file_of_not_ext_not_dir h hx hd
  have hlast : st.done = true → (untarStep dst src false st h).2
      = some (UntarErr.multipleFiles src) := by
    intro hdn
    obtain ⟨st1, heq, -, -⟩ := untarStep_file_done_single dst src st h hf hdn
    rw [heq]
  by_cases hex : st.fs.pathExists (parentPath (joinPath dst h.name)) = true
  · refine ⟨?_, ?_, ?_, ⟨[], ?_⟩, hlast⟩
    · simp [untarStep, hx, hd, hex]
    · simp [untarStep, hx, hd, hex]
    · simp only [untarStep, hx, hd, hex, Bool.false_eq_true, if_false, if_true]
      simpa using findFile_write_chain st.fs (joinPath dst h.name) h.content h.mode
        h.accessTime h.modTime
    · simp [untarStep, hx, hd, hex]
  · refine ⟨?_, ?_, ?_, ⟨[FsOp.mkdirAll (parentPath (joinPath dst h.name))], ?_⟩, hlast⟩
    · simp [untarStep, hx, hd, hex]
    · simp [untarStep, hx, hd, hex]
    · simp only [untarStep, hx, hd, hex, Bool.false_eq_true, if_false, if_true]
      simpa using findFile_write_chain (st.fs.mkdirAll (parentPath (joinPath dst h.name)))
        (joinPath dst h.name) h.content h.mode h.accessTime h.modTime
    · simp [untarStep, hx, hd, hex, List.append_assoc]

/-- Closed instance of `untar_nondir_entry_regular_file` at a symlink
entry with the empty payload the tar reader yields for symlinks: the
entry becomes an empty regular file with the archive times. -/
theorem untar_nondir_entry_regular_file_witness :
    (untarStep ["r"] "t" true ⟨FS.empty, [], false, []⟩
        ⟨"link", TypeFlag.symlink, [], 511, 3, 4⟩).1.fs.findFile (joinPath ["r"] "link")
      = some ⟨[], 511, some (3, 4)⟩
    ∧ (untarStep ["r"] "t" true ⟨FS.empty, [], false, []⟩
        ⟨"link", TypeFlag.symlink, [], 511, 3, 4⟩).1.done = true :=
  ⟨(untar_nondir_entry_regular_file ⟨FS.empty, [], false, []⟩
      ⟨"link", TypeFlag.symlink, [], 511, 3, 4⟩ ["r"] "t" (by decide) (by decide)).2.2.1,
   (untar_nondir_entry_regular_file ⟨FS.empty, [], false, []⟩
      ⟨"link", TypeFlag.symlink, [], 511, 3, 4⟩ ["r"] "t" (by decide) (by decide)).2.1⟩

/-! ## Lemmas about the resolver -/

/-- Successful snapshot resolution: one metadata fetch into the
temporary file, first listed version value returned. -/
theorem parseLastest_success (env : MvnEnv) (aurl : URL) (m : Metadata) (sv : SnapshotVersion)
    (rest : List SnapshotVersion) (htmp : env.tmpOk = true) (hread : env.readOk = true)
    (hm : env.parsed = some m)
    (hl : m.versioning.snapshotVersions.versionList = sv :: rest)
    (hfetch : env.fetchOk env.tmpName (metaUrlOf aurl) = true) :
    parseLastestSnapshotVersion env aurl
      = ([MvnEvent.tmpCreate env.tmpName, MvnEvent.fetch env.tmpName (metaUrlOf aurl),
          MvnEvent.tmpRemove env.tmpName], Except.ok sv.value) := by
  unfold parseLastestSnapshotVersion
  rw [htmp]
  simp [hfetch, hread, hm, hl]

/-- Snapshot resolution with an empty (or unparsable, hence zero-valued)
version list: the no-snapshot-versions error naming the metadata URL. -/
theorem parseLastest_empty (env : MvnEnv) (aurl : URL)
    (htmp : env.tmpOk = true) (hread : env.readOk = true)
    (hempty : (env.parsed.getD Metadata.zero).versioning.snapshotVersions.versionList = [])
    (hfetch : env.fetchOk env.tmpName (metaUrlOf aurl) = true) :
    parseLastestSnapshotVersion env aurl
      = ([MvnEvent.tmpCreate env.tmpName, MvnEvent.fetch env.tmpName (metaUrlOf aurl),
          MvnEvent.tmpRemove env.tmpName],
         Except.error (MvnErr.noSnapshotVersions (metaUrlOf aurl))) := by
  unfold parseLastestSnapshotVersion
  rw [htmp]
  simp [hfetch, hread, hempty]

/-- C8: whenever the temporary metadata file was successfully created,
the resolution call's event trace is exactly create, metadata fetch,
remove — the temporary file is removed before the call returns, on every
exit path (fetch failure, read failure, empty list or success alike). -/
theorem mvn_tempfile_removed (env : MvnEnv) (artifactUrl : URL) (htmp : env.tmpOk = true) :
    (parseLastestSnapshotVersion env artifactUrl).1
      = [MvnEvent.tmpCreate env.tmpName, MvnEvent.fetch env.tmpName (metaUrlOf artifactUrl),
         MvnEvent.tmpRemove env.tmpName] := by
  unfold parseLastestSnapshotVersion
  rw [htmp]
  simp only [Bool.true_eq_false, if_false]
  by_cases hf : env.fetchOk env.tmpName (metaUrlOf artifactUrl) = false
  · simp [hf]
  · have hf' : env.fetchOk env.tmpName (metaUrlOf artifactUrl) = true := by
      simpa using hf
    by_cases hr : env.readOk = false
    · simp [hf', hr]
    · have hr' : env.readOk = true := by simpa using hr
      cases hvl : (env.parsed.getD Metadata.zero).versioning.snapshotVersions.versionList <;>
        simp [hf', hr', hvl]

/-- Closed instance of `mvn_tempfile_removed`, on a failing-fetch exit
path. -/
theorem mvn_tempfile_removed_witness :
    (parseLastestSnapshotVersion mvnEnvNoFetch ⟨"http://h", "/p", []⟩).1
      = [MvnEvent.tmpCreate "/tmp/maven-metadata1",
         MvnEvent.fetch "/tmp/maven-metadata1" (metaUrlOf ⟨"http://h", "/p", []⟩),
         MvnEvent.tmpRemove "/tmp/maven-metadata1"] :=
  mvn_tempfile_removed mvnEnvNoFetch ⟨"http://h", "/p", []⟩ rfl

/-- C6: for a coordinate URL whose required parameters are present and
whose version does not end in `-SNAPSHOT`, `GetFile` performs no metadata
fetch and delegates exactly one byte-fetch, at the original URL with the
query stripped and the path extended by the slash-joined group id, the
artifact id, the version, and the `artifactId-version.type` file name
(type defaulting to `jar`); the local destination is the final URL's base
name joined to the parent directory of the destination argument. -/
theorem mvn_release_single_fetch (env : MvnEnv) (dst : String) (u : URL)
    (hg : u.getQuery "groupId" ≠ "") (ha : u.getQuery "artifactId" ≠ "")
    (hv : u.getQuery "version" ≠ "")
    (hsnap : strHasSuffix (u.getQuery "version") "-SNAPSHOT" = false) :
    (GetFile env dst u).1
      = [MvnEvent.fetch
          (filepathJoin (filepathDir dst)
            (filepathBase (artifactUrlOf
              (mvnBaseUrl u (u.getQuery "groupId") (u.getQuery "artifactId")
                (u.getQuery "version"))
              (u.getQuery "artifactId") (u.getQuery "version")
              (if u.getQuery "type" = "" then "jar" else u.getQuery "type")).path))
          (artifactUrlOf
            (mvnBaseUrl u (u.getQuery "groupId") (u.getQuery "artifactId")
              (u.getQuery "version"))
            (u.getQuery "artifactId") (u.getQuery "version")
            (if u.getQuery "type" = "" then "jar" else u.getQuery "type"))] := by
  unfold GetFile
  simp only [if_neg hg, if_neg ha, if_neg hv, hsnap, Bool.false_eq_true, if_false,
    List.nil_append]

/-- Closed instance of `mvn_release_single_fetch` at the example release
coordinate. -/
theorem mvn_release_single_fetch_witness :
    (GetFile mvnEnvEx "/out/dest" mvnUrlRel).1
      = [MvnEvent.fetch "/out/test-1.0.0.jar"
          ⟨"http://host", "/maven/repo/org/example/test/1.0.0/test-1.0.0.jar", []⟩] := by
  rw [mvn_release_single_fetch mvnEnvEx "/out/dest" mvnUrlRel
    (by decide) (by decide) (by decide) (by decide)]
  rfl

/-- C5: for a coordinate URL whose version ends in `-SNAPSHOT` and whose
snapshot resolution succeeds, `GetFile` first issues exactly one metadata
fetch, at the base path extended with `/maven-metadata.xml`, resolves the
version to the value of the first entry of the parsed snapshot-version
list, and then issues the artifact fetch at the URL whose file name uses
the resolved version while the path segment still carries the declared
`-SNAPSHOT` version. -/
theorem mvn_snapshot_resolution (env : MvnEnv) (dst : String) (u : URL)
    (m : Metadata) (sv : SnapshotVersion) (rest : List SnapshotVersion)
    (hg : u.getQuery "groupId" ≠ "") (ha : u.getQuery "artifactId" ≠ "")
    (hv : u.getQuery "version" ≠ "")
    (hsnap : strHasSuffix (u.getQuery "version") "-SNAPSHOT" = true)
    (htmp : env.tmpOk = true) (hread : env.readOk = true)
    (hm : env.parsed = some m)
    (hl : m.versioning.snapshotVersions.versionList = sv :: rest)
    (hfetch : env.fetchOk env.tmpName (metaUrlOf (mvnBaseUrl u (u.getQuery "groupId")
        (u.getQuery "artifactId") (u.getQuery "version"))) = true) :
    (GetFile env dst u).1
      = [MvnEvent.tmpCreate env.tmpName,
         MvnEvent.fetch env.tmpName (metaUrlOf (mvnBaseUrl u (u.getQuery "groupId")
           (u.getQuery "artifactId") (u.getQuery "version"))),
         MvnEvent.tmpRemove env.tmpName,
         MvnEvent.fetch
           (filepathJoin (filepathDir dst)
             (filepathBase (artifactUrlOf
               (mvnBaseUrl u (u.getQuery "groupId") (u.getQuery "artifactId")
                 (u.getQuery "version"))
               (u.getQuery "artifactId") sv.value
               (if u.getQuery "type" = "" then "jar" else u.getQuery "type")).path))
           (artifactUrlOf
             (mvnBaseUrl u (u.getQuery "groupId") (u.getQuery "artifactId")
               (u.getQuery "version"))
             (u.getQuery "artifactId") sv.value
             (if u.getQuery "type" = "" then "jar" else u.getQuery "type"))] := by
  have hparse := parseLastest_success env
    (mvnBaseUrl u (u.getQuery "groupId") (u.getQuery "artifactId") (u.getQuery "version"))
    m sv rest htmp hread hm hl hfetch
  unfold GetFile
  simp only [if_neg hg, if_neg ha, if_neg hv, hsnap, if_true, hparse, List.cons_append,
    List.nil_append]

/-- Closed instance of `mvn_snapshot_resolution` at the example snapshot
coordinate: the metadata URL is fetched first, then the artifact URL
bearing the first listed snapshot version in its file name. -/
theorem mvn_snapshot_resolution_witness :
    (GetFile mvnEnvEx "/out/dest" mvnUrlSnap).1
      = [MvnEvent.tmpCreate "/tmp/maven-metadata1",
         MvnEvent.fetch "/tmp/maven-metadata1"
           ⟨"http://host",
            "/maven/repo/org/example/test/1.0.0-SNAPSHOT/maven-metadata.xml", []⟩,
         MvnEvent.tmpRemove "/tmp/maven-metadata1",
         MvnEvent.fetch "/out/test-1.0.0-20240101.010101-1.jar"
           ⟨"http://host",
            "/maven/repo/org/example/test/1.0.0-SNAPSHOT/test-1.0.0-20240101.010101-1.jar",
            []⟩] := by
  rw [mvn_snapshot_resolution mvnEnvEx "/out/dest" mvnUrlSnap mvnMetaEx
    ⟨"jar", "1.0.0-20240101.010101-1"⟩ [] (by decide) (by decide) (by decide) (by decide)
    rfl rfl rfl rfl rfl]
  rfl

/-- C7: when the fetched snapshot metadata parses to an empty
snapshot-version list — or does not parse at all, the parse result being
unchecked so that the zero value with its empty list is used — snapshot
resolution fails with the no-snapshot-versions error naming the metadata
URL, and no artifact fetch is issued: the only fetch in the trace is the
metadata fetch. -/
theorem mvn_no_snapshot_versions (env : MvnEnv) (dst : String) (u : URL)
    (hg : u.getQuery "groupId" ≠ "") (ha : u.getQuery "artifactId" ≠ "")
    (hv : u.getQuery "version" ≠ "")
    (hsnap : strHasSuffix (u.getQuery "version") "-SNAPSHOT" = true)
    (htmp : env.tmpOk = true) (hread : env.readOk = true)
    (hfetch : env.fetchOk env.tmpName (metaUrlOf (mvnBaseUrl u (u.getQuery "groupId")
        (u.getQuery "artifactId") (u.getQuery "version"))) = true)
    (hempty : env.parsed = none ∨ ∃ m, env.parsed = some m
        ∧ m.versioning.snapshotVersions.versionList = []) :
    (GetFile env dst u).2
      = Except.error (MvnErr.noSnapshotVersions (metaUrlOf (mvnBaseUrl u
          (u.getQuery "groupId") (u.getQuery "artifactId") (u.getQuery "version"))))
    ∧ (GetFile env dst u).1
      = [MvnEvent.tmpCreate env.tmpName,
         MvnEvent.fetch env.tmpName (metaUrlOf (mvnBaseUrl u (u.getQuery "groupId")
           (u.getQuery "artifactId") (u.getQuery "version"))),
         MvnEvent.tmpRemove env.tmpName] := by
  have hempty' : (env.parsed.getD Metadata.zero).versioning.snapshotVersions.versionList
      = [] := by
    rcases hempty with hn | ⟨m, hsome, hl⟩
    · rw [hn]
      rfl
    · rw [hsome]
      simpa using hl
  have hparse := parseLastest_empty env
    (mvnBaseUrl u (u.getQuery "groupId") (u.getQuery "artifactId") (u.getQuery "version"))
    htmp hread hempty' hfetch
  unfold GetFile
  simp only [if_neg hg, if_neg ha, if_neg hv, hsnap, if_true, hparse]
  exact ⟨trivial, trivial⟩

/-- Closed instance of `mvn_no_snapshot_versions`, on the malformed
(unparsable) metadata environment. -/
theorem mvn_no_snapshot_versions_witness :
    (GetFile mvnEnvBad "/out/dest" mvnUrlSnap).2
      = Except.error (MvnErr.noSnapshotVersions
          ⟨"http://host",
           "/maven/repo/org/example/test/1.0.0-SNAPSHOT/maven-metadata.xml", []⟩)
    ∧ (GetFile mvnEnvBad "/out/dest" mvnUrlSnap).1
      = [MvnEvent.tmpCreate "/tmp/maven-metadata1",
         MvnEvent.fetch "/tmp/maven-metadata1"
           ⟨"http://host",
            "/maven/repo/org/example/test/1.0.0-SNAPSHOT/maven-metadata.xml", []⟩,
         MvnEvent.tmpRemove "/tmp/maven-metadata1"] := by
  have h := mvn_no_snapshot_versions mvnEnvBad "/out/dest" mvnUrlSnap
    (by decide) (by decide) (by decide) (by decide) rfl rfl rfl (Or.inl rfl)
  exact ⟨h.1.trans (by rfl), h.2.trans (by rfl)⟩

end Spec2Proof
